import Mathlib

set_option maxRecDepth 2000

/-!
Shallow embedding of the cellular-automaton engine in `src/src/lib.rs`
(`Cell`, `Universe` and its methods), together with theorems checking the
natural-language specification against this embedding.

Modelling conventions:
* Rust `u32` values are modelled as `Nat`.  Where the source performs `u32`
  arithmetic that can wrap (the `row - 1` / `column - 1` computations in
  `is_fire_neighbour`), the wrap is modelled explicitly with
  `wrapping_sub_u32`, i.e. `(a + 2^32 - b) % 2^32`.  Additions such as
  `row + 1` never wrap for indices below the grid dimensions, which are
  `u32` values, so they are plain `Nat` additions.
* `Vec<Cell>` is modelled as `List Cell`; the panicking index read
  `self.cells[idx]` is modelled as the total accessor `cell_read` (every
  theorem carries enough bounds hypotheses that the out-of-range default is
  never consulted), and the panicking index write in `set_cells` is modelled
  with `Option` (`none` = panic).
* Methods taking `&mut self` and returning a value
  (`sand_state_next_tick`) return a pair of the value and the new `nexts`
  buffer.
-/

namespace Sandbox

/-- The five material states of `enum Cell` in `src/src/lib.rs`. -/
inductive Cell where
  | Dead
  | Alive
  | Wood
  | Fire
  | Sand
deriving DecidableEq

/-- The `Universe` struct: dimensions plus the two cell buffers
(`cells` is the current buffer, `nexts` the scratch buffer). -/
structure Universe where
  width : Nat
  height : Nat
  cells : List Cell
  nexts : List Cell
deriving DecidableEq

/-- The `u32` wrapping subtraction, used to model `row - 1` / `column - 1`
in `is_fire_neighbour` (the only places where the source can underflow). -/
def wrapping_sub_u32 (a b : Nat) : Nat :=
  (a + (2 ^ 32 - b)) % 2 ^ 32

/-- Model of the `Vec` index read `v[idx]`: total, with `Dead` as the value
of an out-of-range read.  Every theorem below carries bounds hypotheses under
which the index is in range, so the default is never consulted there. -/
def cell_read (l : List Cell) (i : Nat) : Cell :=
  l.getD i Cell.Dead

namespace Universe

/-- Method `get_index`: row-major linear index `row * width + column`. -/
def get_index (u : Universe) (row column : Nat) : Nat :=
  row * u.width + column

/-- Method `live_neighbour_count`: iterates `delta_row` over `[height-1, 0, 1]` and
`delta_col` over `[width-1, 0, 1]`, skipping the iteration whose two delta
values are both zero, and counts neighbours
`((row+delta_row) % height, (col+delta_col) % width)` that are `Alive`. -/
def live_neighbour_count (u : Universe) (row column : Nat) : Nat :=
  [u.height - 1, 0, 1].foldl (fun count delta_row =>
    [u.width - 1, 0, 1].foldl (fun count delta_col =>
      if delta_row = 0 ∧ delta_col = 0 then count
      else
        let neighbour_row := (row + delta_row) % u.height
        let neighbour_col := (column + delta_col) % u.width
        let idx := u.get_index neighbour_row neighbour_col
        if cell_read u.cells idx = Cell.Alive then count + 1 else count)
      count) 0

/-- Method `sand_can_fall`: the cell exists (the `row < 0` / `column < 0` checks of
the source are vacuous for unsigned values and are dropped) and currently
holds `Dead` or `Fire`. -/
def sand_can_fall (u : Universe) (row column : Nat) : Bool :=
  if row > u.height - 1 ∨ column > u.width - 1 then false
  else
    match cell_read u.cells (u.get_index row column) with
    | Cell.Dead => true
    | Cell.Fire => true
    | _ => false

/-- Method `sand_state_next_tick`: if sand can fall into `(row+1, column)`, write
`Sand` into the `nexts` buffer at that index and return `Dead`; otherwise
return `Sand` and leave `nexts` unchanged.  The returned pair is
(return value, new `nexts` buffer). -/
def sand_state_next_tick (u : Universe) (row column : Nat) : Cell × List Cell :=
  if u.sand_can_fall (row + 1) column then
    let bottom_index := u.get_index (row + 1) column
    (Cell.Dead, u.nexts.set bottom_index Cell.Sand)
  else
    (Cell.Sand, u.nexts)

/-- Method `is_fire`: the cell exists (again the unsigned `< 0` checks are dropped)
and currently holds `Fire`. -/
def is_fire (u : Universe) (row column : Nat) : Bool :=
  if row > u.height - 1 ∨ column > u.width - 1 then false
  else cell_read u.cells (u.get_index row column) = Cell.Fire

/-- Method `is_fire_neighbour`: checks the four orthogonal neighbours; the `row - 1`
and `column - 1` of the source are `u32` subtractions and are modelled with
`wrapping_sub_u32`. -/
def is_fire_neighbour (u : Universe) (row column : Nat) : Bool :=
  let top_fire := u.is_fire (wrapping_sub_u32 row 1) column
  let bottom_fire := u.is_fire (row + 1) column
  let left_fire := u.is_fire row (wrapping_sub_u32 column 1)
  let right_fire := u.is_fire row (column + 1)
  top_fire || bottom_fire || left_fire || right_fire

/-- Method `wood_state_next_tick`: Wood next to fire ignites, otherwise stays Wood. -/
def wood_state_next_tick (u : Universe) (row column : Nat) : Cell :=
  if u.is_fire_neighbour row column then Cell.Fire else Cell.Wood

/-- Method `fire_state_next_tick`: fire is not active for more than one tick. -/
def fire_state_next_tick (_u : Universe) (_row _column : Nat) : Cell :=
  Cell.Dead

/-- Method `life_state_next_tick`: the classic Life rules, written as the ordered
match of the source (the unused `idx` binding of the source is dropped). -/
def life_state_next_tick (u : Universe) (row column : Nat) (cell : Cell) : Cell :=
  let live_neighbours := u.live_neighbour_count row column
  if cell = Cell.Alive ∧ live_neighbours < 2 then Cell.Dead
  else if cell = Cell.Alive ∧ (live_neighbours = 2 ∨ live_neighbours = 3) then Cell.Alive
  else if cell = Cell.Alive ∧ live_neighbours > 3 then Cell.Dead
  else if cell = Cell.Dead ∧ live_neighbours = 3 then Cell.Alive
  else cell

/-- Method `set_cells`: for each coordinate pair, write `cell` at linear index
`get_index row col` into the current buffer.  There is no bounds check in the
source; an index past the end of the buffer is a panicking `Vec` write,
modelled as `none`. -/
def set_cells (u : Universe) (coords : List (Nat × Nat)) (cell : Cell) : Option Universe :=
  match coords with
  | [] => some u
  | (row, col) :: rest =>
    let idx := u.get_index row col
    if idx < u.cells.length then
      set_cells { u with cells := u.cells.set idx cell } rest cell
    else
      none

/-- The body of the inner loop of `tick` for one `(row, col)` position:
dispatch on the current cell value, compute the next cell (for `Sand` this
also rewrites the evolving `nexts` buffer, passed here as `nx`), and write
the next cell at `get_index row col`. -/
def tick_cell (u : Universe) (nx : List Cell) (row col : Nat) : List Cell :=
  let idx := u.get_index row col
  let cell := cell_read u.cells idx
  let res : Cell × List Cell :=
    match cell with
    | Cell.Dead => (u.life_state_next_tick row col cell, nx)
    | Cell.Alive => (u.life_state_next_tick row col cell, nx)
    | Cell.Wood => (u.wood_state_next_tick row col, nx)
    | Cell.Fire => (u.fire_state_next_tick row col, nx)
    | Cell.Sand => { u with nexts := nx }.sand_state_next_tick row col
  res.2.set idx res.1

/-- The double loop of `tick`: rows in `(0..height).rev()`, columns in
`(0..width).rev()`, starting from `nexts = cells.clone()`. -/
def tick_scan (u : Universe) : List Cell :=
  ((List.range u.height).reverse).foldl
    (fun nx row =>
      ((List.range u.width).reverse).foldl (fun nx2 col => tick_cell u nx2 row col) nx)
    u.cells

/-- Method `tick`: run the scan and then `self.cells = self.nexts.clone()`; at the
end of the source method both buffers hold the scan result. -/
def tick (u : Universe) : Universe :=
  { u with cells := tick_scan u, nexts := tick_scan u }

/-- Constructor `life_demo`: the 64x64 starting grid with `Alive` at indices divisible by
2 or by 7. -/
def life_demo : Universe :=
  { width := 64
    height := 64
    cells := (List.range (64 * 64)).map
      (fun i => if i % 2 = 0 ∨ i % 7 = 0 then Cell.Alive else Cell.Dead)
    nexts := (List.range (64 * 64)).map (fun _ => Cell.Dead) }

/-- Constructor `fire_demo`: the 64x64 starting grid of Wood with Fire at index 0. -/
def fire_demo : Universe :=
  { width := 64
    height := 64
    cells := (List.range (64 * 64)).map
      (fun i => if i = 0 then Cell.Fire else Cell.Wood)
    nexts := (List.range (64 * 64)).map (fun _ => Cell.Dead) }

/-- Constructor `sand_demo`: the 64x64 starting grid with Sand at indices divisible by 3. -/
def sand_demo : Universe :=
  { width := 64
    height := 64
    cells := (List.range (64 * 64)).map
      (fun i => if i % 3 = 0 then Cell.Sand else Cell.Dead)
    nexts := (List.range (64 * 64)).map (fun _ => Cell.Dead) }

/-- Method `set_width`: replace the width and reset the current buffer to
`width * height` Dead cells.  The source does not touch `nexts`. -/
def set_width (u : Universe) (width : Nat) : Universe :=
  { u with
    width := width
    cells := (List.range (width * u.height)).map (fun _ => Cell.Dead) }

/-- Method `set_height`: replace the height and reset the current buffer to
`width * height` Dead cells.  The source does not touch `nexts`. -/
def set_height (u : Universe) (height : Nat) : Universe :=
  { u with
    height := height
    cells := (List.range (u.width * height)).map (fun _ => Cell.Dead) }

end Universe

/-- The inner loop of `tick` over a list of column indices, for one row. -/
def fold_cols (u : Universe) (row : Nat) (cols : List Nat) (nx : List Cell) : List Cell :=
  cols.foldl (fun a col => Universe.tick_cell u a row col) nx

/-- The outer loop of `tick` over a list of row indices, each row scanning
columns `(0..width).rev()`. -/
def fold_rows (u : Universe) (rows : List Nat) (nx : List Cell) : List Cell :=
  rows.foldl (fun a row => fold_cols u row ((List.range u.width).reverse) a) nx

/-- A universe reachable by one of the demo constructors of the source
followed by any sequence of the public mutating operations. -/
inductive Reachable : Universe → Prop where
  | life_demo : Reachable Universe.life_demo
  | fire_demo : Reachable Universe.fire_demo
  | sand_demo : Reachable Universe.sand_demo
  | tick {u : Universe} : Reachable u → Reachable u.tick
  | set_cells {u u' : Universe} {coords : List (Nat × Nat)} {cell : Cell} :
      Reachable u → u.set_cells coords cell = some u' → Reachable u'
  | set_width {u : Universe} (w : Nat) : Reachable u → Reachable (u.set_width w)
  | set_height {u : Universe} (h : Nat) : Reachable u → Reachable (u.set_height h)

/-- The per-cell value computed by the rule dispatch of `tick`, viewed as a
pure function of the frozen current buffer (for `Sand` this is the returned
cell; the forward write into `nexts` is accounted separately). -/
def rule_val (u : Universe) (row col : Nat) : Cell :=
  match cell_read u.cells (u.get_index row col) with
  | Cell.Dead => u.life_state_next_tick row col Cell.Dead
  | Cell.Alive => u.life_state_next_tick row col Cell.Alive
  | Cell.Wood => u.wood_state_next_tick row col
  | Cell.Fire => u.fire_state_next_tick row col
  | Cell.Sand => if u.sand_can_fall (row + 1) col then Cell.Dead else Cell.Sand

/-- During a tick, a grain of sand from the cell directly above falls into
`(row, col)`: there is a row above, it holds `Sand`, and `(row, col)` can
receive falling sand. -/
def fall_into (u : Universe) (row col : Nat) : Prop :=
  1 ≤ row ∧
    cell_read u.cells (u.get_index (row - 1) col) = Cell.Sand ∧
    u.sand_can_fall row col = true

instance (u : Universe) (row col : Nat) : Decidable (fall_into u row col) := by
  unfold fall_into; infer_instance

/-- The spec description of the traversal order of `tick`: every (row, col)
pair, rows in reverse order, columns in reverse order within a row, as one
flat list. -/
def scan_order (h w : Nat) : List (Nat × Nat) :=
  ((List.range h).reverse).flatMap (fun r => ((List.range w).reverse).map (fun c => (r, c)))

/-- The spec description of the Life neighbourhood: the 8 toroidal neighbours
at offsets `row + dr mod height`, `col + dc mod width` for the delta pairs
`dr, dc` in `{-1, 0, 1}` other than `(0, 0)`, counting those equal to
`Alive`.  The deltas are signed, so the wrap is the mathematical modulus on
integers. -/
def spec_live_neighbour_count (u : Universe) (row col : Nat) : Nat :=
  ([(-1, -1), (-1, 0), (-1, 1), (0, -1), (0, 1), (1, -1), (1, 0), (1, 1)] :
      List (Int × Int)).foldl
    (fun count d =>
      let neighbour_row := (((row : Int) + d.1) % (u.height : Int)).toNat
      let neighbour_col := (((col : Int) + d.2) % (u.width : Int)).toNat
      if cell_read u.cells (u.get_index neighbour_row neighbour_col) = Cell.Alive
      then count + 1 else count) 0

/-- A 1-wide, 2-tall universe with an `Alive` cell above a `Dead` cell. -/
def ex_w1h2_alive : Universe :=
  { width := 1, height := 2
    cells := [Cell.Alive, Cell.Dead]
    nexts := [Cell.Dead, Cell.Dead] }

/-- A 1-wide, 2-tall universe with `Sand` directly above `Fire`. -/
def ex_sand_over_fire : Universe :=
  { width := 1, height := 2
    cells := [Cell.Sand, Cell.Fire]
    nexts := [Cell.Dead, Cell.Dead] }

/-- A 2x2 universe of `Dead` cells. -/
def ex_2x2_dead : Universe :=
  { width := 2, height := 2
    cells := [Cell.Dead, Cell.Dead, Cell.Dead, Cell.Dead]
    nexts := [Cell.Dead, Cell.Dead, Cell.Dead, Cell.Dead] }

/-- A 1-wide, 2-tall universe with `Sand` above `Dead`. -/
def ex_sand_over_dead : Universe :=
  { width := 1, height := 2
    cells := [Cell.Sand, Cell.Dead]
    nexts := [Cell.Dead, Cell.Dead] }

/-- The same grid as `ex_sand_over_dead` with a different scratch buffer. -/
def ex_sand_over_dead_alt : Universe :=
  { width := 1, height := 2
    cells := [Cell.Sand, Cell.Dead]
    nexts := [Cell.Sand, Cell.Sand] }

/-- A 3x3 universe mixing Sand with every other material. -/
def ex_sandmix : Universe :=
  { width := 3, height := 3
    cells := [Cell.Sand, Cell.Dead, Cell.Sand,
              Cell.Sand, Cell.Fire, Cell.Wood,
              Cell.Dead, Cell.Sand, Cell.Alive]
    nexts := [Cell.Dead, Cell.Dead, Cell.Dead,
              Cell.Dead, Cell.Dead, Cell.Dead,
              Cell.Dead, Cell.Dead, Cell.Dead] }

/-- A 3x3 universe with a vertical blinker in the middle column. -/
def ex_blinker : Universe :=
  { width := 3, height := 3
    cells := [Cell.Dead, Cell.Alive, Cell.Dead,
              Cell.Dead, Cell.Alive, Cell.Dead,
              Cell.Dead, Cell.Alive, Cell.Dead]
    nexts := [Cell.Dead, Cell.Dead, Cell.Dead,
              Cell.Dead, Cell.Dead, Cell.Dead,
              Cell.Dead, Cell.Dead, Cell.Dead] }

/-- A 1-wide, 3-tall universe with a single Wood cell between Fire and Dead. -/
def ex_fire_wood : Universe :=
  { width := 1, height := 3
    cells := [Cell.Fire, Cell.Wood, Cell.Dead]
    nexts := [Cell.Dead, Cell.Dead, Cell.Dead] }

/-! ### Basic list lemmas -/

theorem getD_set_self {α : Type} (l : List α) (i : Nat) (a d : α) (h : i < l.length) :
    (l.set i a).getD i d = a := by
  simp [List.getD_eq_getElem?_getD, List.getElem?_set_self, h]

theorem getD_set_ne {α : Type} (l : List α) {i j : Nat} (a d : α) (h : i ≠ j) :
    (l.set i a).getD j d = l.getD j d := by
  simp [List.getD_eq_getElem?_getD, List.getElem?_set_ne h]

/-! ### Arithmetic facts about row-major indices -/

theorem index_lt_of_lt {w h r c : Nat} (hr : r < h) (hc : c < w) :
    r * w + c < w * h := by
  have h1 : r * w + c < (r + 1) * w := by
    rw [Nat.succ_mul]; omega
  have h2 : (r + 1) * w ≤ h * w := Nat.mul_le_mul_right w hr
  rw [Nat.mul_comm w h]; omega

theorem index_mono_row {w r r' c c' : Nat} (hc : c < w) (h : r < r') :
    r * w + c < r' * w + c' := by
  have h1 : r * w + c < (r + 1) * w := by
    rw [Nat.succ_mul]; omega
  have h2 : (r + 1) * w ≤ r' * w := Nat.mul_le_mul_right w h
  omega

theorem index_inj {w r r' c c' : Nat} (hc : c < w) (hc' : c' < w)
    (h : r * w + c = r' * w + c') : r = r' ∧ c = c' := by
  rcases Nat.lt_trichotomy r r' with hlt | rfl | hgt
  · exact absurd h (Nat.ne_of_lt (index_mono_row hc hlt))
  · constructor
    · rfl
    · omega
  · exact absurd h.symm (Nat.ne_of_lt (index_mono_row hc' hgt))

/-! ### `tick_cell` characterization -/

theorem cell_read_set_self (l : List Cell) (i : Nat) (a : Cell) (h : i < l.length) :
    cell_read (l.set i a) i = a :=
  getD_set_self l i a Cell.Dead h

theorem cell_read_set_ne (l : List Cell) {i j : Nat} (a : Cell) (h : i ≠ j) :
    cell_read (l.set i a) j = cell_read l j :=
  getD_set_ne l a Cell.Dead h

/-! ### `tick_cell` characterization -/

theorem sand_can_fall_set_nexts (u : Universe) (nx : List Cell) (row col : Nat) :
    ({ u with nexts := nx } : Universe).sand_can_fall row col = u.sand_can_fall row col :=
  rfl

theorem get_index_set_nexts (u : Universe) (nx : List Cell) (row col : Nat) :
    ({ u with nexts := nx } : Universe).get_index row col = u.get_index row col :=
  rfl

theorem tick_cell_eq (u : Universe) (nx : List Cell) (row col : Nat) :
    Universe.tick_cell u nx row col =
      (if cell_read u.cells (u.get_index row col) = Cell.Sand ∧
          u.sand_can_fall (row + 1) col = true
       then nx.set (u.get_index (row + 1) col) Cell.Sand else nx).set
        (u.get_index row col) (rule_val u row col) := by
  unfold Universe.tick_cell rule_val Universe.sand_state_next_tick
  cases hc : cell_read u.cells (u.get_index row col) <;>
    simp [hc, sand_can_fall_set_nexts, get_index_set_nexts]
  cases hf : u.sand_can_fall (row + 1) col <;> simp [hf]

theorem tick_cell_length (u : Universe) (nx : List Cell) (row col : Nat) :
    (Universe.tick_cell u nx row col).length = nx.length := by
  rw [tick_cell_eq]
  split <;> simp

theorem tick_cell_read_self (u : Universe) (nx : List Cell) (row col : Nat)
    (h : u.get_index row col < nx.length) :
    cell_read (Universe.tick_cell u nx row col) (u.get_index row col) = rule_val u row col := by
  rw [tick_cell_eq]
  split
  · exact cell_read_set_self _ _ _ (by simpa using h)
  · exact cell_read_set_self _ _ _ h

theorem tick_cell_read_other (u : Universe) (nx : List Cell) (row col t : Nat)
    (h1 : t ≠ u.get_index row col) (h2 : t ≠ u.get_index (row + 1) col) :
    cell_read (Universe.tick_cell u nx row col) t = cell_read nx t := by
  rw [tick_cell_eq]
  rw [cell_read_set_ne _ _ (Ne.symm h1)]
  split
  · exact cell_read_set_ne _ _ (Ne.symm h2)
  · rfl

/-! ### Fold lemmas for the tick scan -/

theorem fold_cols_nil (u : Universe) (row : Nat) (nx : List Cell) :
    fold_cols u row [] nx = nx :=
  rfl

theorem fold_cols_cons (u : Universe) (row c : Nat) (cols : List Nat) (nx : List Cell) :
    fold_cols u row (c :: cols) nx = fold_cols u row cols (Universe.tick_cell u nx row c) :=
  rfl

theorem fold_rows_nil (u : Universe) (nx : List Cell) :
    fold_rows u [] nx = nx :=
  rfl

theorem fold_rows_cons (u : Universe) (r : Nat) (rows : List Nat) (nx : List Cell) :
    fold_rows u (r :: rows) nx =
      fold_rows u rows (fold_cols u r ((List.range u.width).reverse) nx) :=
  rfl

theorem fold_rows_append (u : Universe) (a b : List Nat) (nx : List Cell) :
    fold_rows u (a ++ b) nx = fold_rows u b (fold_rows u a nx) := by
  simp [fold_rows, List.foldl_append]

theorem tick_scan_eq_fold_rows (u : Universe) :
    u.tick_scan = fold_rows u ((List.range u.height).reverse) u.cells :=
  rfl

theorem fold_cols_length (u : Universe) (row : Nat) :
    ∀ (cols : List Nat) (nx : List Cell), (fold_cols u row cols nx).length = nx.length := by
  intro cols
  induction cols with
  | nil => intro nx; rfl
  | cons c cols ih =>
    intro nx
    rw [fold_cols_cons, ih, tick_cell_length]

theorem fold_rows_length (u : Universe) :
    ∀ (rows : List Nat) (nx : List Cell), (fold_rows u rows nx).length = nx.length := by
  intro rows
  induction rows with
  | nil => intro nx; rfl
  | cons r rows ih =>
    intro nx
    rw [fold_rows_cons, ih, fold_cols_length]

theorem fold_cols_preserve (u : Universe) (row t : Nat) :
    ∀ (cols : List Nat) (nx : List Cell),
      (∀ col ∈ cols, t ≠ u.get_index row col ∧ t ≠ u.get_index (row + 1) col) →
      cell_read (fold_cols u row cols nx) t = cell_read nx t := by
  intro cols
  induction cols with
  | nil => intro nx _; rfl
  | cons c cols ih =>
    intro nx H
    rw [fold_cols_cons, ih _ (fun col hcol => H col (List.mem_cons_of_mem c hcol)),
      tick_cell_read_other u nx row c t (H c (List.mem_cons_self c cols)).1
        (H c (List.mem_cons_self c cols)).2]

theorem fold_rows_preserve (u : Universe) (t : Nat) :
    ∀ (rows : List Nat) (nx : List Cell),
      (∀ row ∈ rows, ∀ col < u.width,
        t ≠ u.get_index row col ∧ t ≠ u.get_index (row + 1) col) →
      cell_read (fold_rows u rows nx) t = cell_read nx t := by
  intro rows
  induction rows with
  | nil => intro nx _; rfl
  | cons r rows ih =>
    intro nx H
    rw [fold_rows_cons, ih _ (fun row hrow => H row (List.mem_cons_of_mem r hrow))]
    exact fold_cols_preserve u r t _ nx
      (fun col hcol => H r (List.mem_cons_self r rows) col (by simpa using hcol))

theorem range_reverse_succ (n : Nat) :
    (List.range (n + 1)).reverse = n :: (List.range n).reverse := by
  simp [List.range_succ]

theorem range_reverse_split {h : Nat} :
    ∀ {r : Nat}, r < h → ∃ A, (List.range h).reverse = A ++ r :: (List.range r).reverse := by
  induction h with
  | zero => intro r hr; omega
  | succ m ih =>
    intro r hr
    by_cases hrm : r = m
    · subst hrm
      exact ⟨[], by rw [range_reverse_succ]; rfl⟩
    · obtain ⟨A, hA⟩ := ih (show r < m by omega)
      exact ⟨m :: A, by rw [range_reverse_succ, hA]; rfl⟩

theorem get_index_lt (u : Universe) {r c : Nat} (hr : r < u.height) (hc : c < u.width) :
    u.get_index r c < u.width * u.height :=
  index_lt_of_lt hr hc

theorem get_index_ne_col (u : Universe) {r c c' : Nat} (h : c ≠ c') :
    u.get_index r c ≠ u.get_index r c' :=
  fun he => h (Nat.add_left_cancel he)

theorem get_index_lt_row (u : Universe) {r r' c c' : Nat} (hc : c < u.width) (h : r < r') :
    u.get_index r c < u.get_index r' c' :=
  index_mono_row hc h

/-- Scanning row `r` itself writes `rule_val u r c` at the index of `(r, c)`:
the write of the step at `(r, c)` lands there, and the later steps of the row
(smaller columns) do not touch that index. -/
theorem fold_cols_target (u : Universe) (r c : Nat) (hcu : c < u.width) :
    ∀ (w : Nat), c < w → ∀ nx : List Cell, u.get_index r c < nx.length →
      cell_read (fold_cols u r ((List.range w).reverse) nx) (u.get_index r c) =
        rule_val u r c := by
  intro w
  induction w with
  | zero => intro hcw; omega
  | succ w ih =>
    intro hcw nx hlen
    rw [range_reverse_succ, fold_cols_cons]
    by_cases hc : c = w
    · subst hc
      rw [fold_cols_preserve u r (u.get_index r c) _ _ (fun col hcol => by
        have hcol' : col < c := by simpa using hcol
        refine ⟨get_index_ne_col u (by omega), ?_⟩
        exact Nat.ne_of_lt (get_index_lt_row u hcu (by omega)))]
      exact tick_cell_read_self u nx r c hlen
    · have h1 : u.get_index r c ≠ u.get_index r w := get_index_ne_col u hc
      have h2 : u.get_index r c ≠ u.get_index (r + 1) w :=
        Nat.ne_of_lt (get_index_lt_row u hcu (by omega))
      rw [ih (by omega) _ (by rw [tick_cell_length]; exact hlen)]

/-- Scanning the row directly above the target `(r, c)` (row `r - 1`) turns
the value at the index of `(r, c)` into `Sand` exactly when the cell above
holds `Sand` and can fall into `(r, c)`; otherwise it leaves it unchanged. -/
theorem fold_cols_above (u : Universe) (r c : Nat) (hcu : c < u.width) (hr1 : 1 ≤ r) :
    ∀ (w : Nat), c < w → w ≤ u.width → ∀ nx : List Cell, u.get_index r c < nx.length →
      cell_read (fold_cols u (r - 1) ((List.range w).reverse) nx) (u.get_index r c) =
        if cell_read u.cells (u.get_index (r - 1) c) = Cell.Sand ∧
            u.sand_can_fall r c = true
        then Cell.Sand else cell_read nx (u.get_index r c) := by
  intro w
  induction w with
  | zero => intro hcw; omega
  | succ w ih =>
    intro hcw hwu nx hlen
    rw [range_reverse_succ, fold_cols_cons]
    have hsucc : r - 1 + 1 = r := by omega
    by_cases hc : c = w
    · subst hc
      rw [fold_cols_preserve u (r - 1) (u.get_index r c) _ _ (fun col hcol => by
        have hcol' : col < c := by simpa using hcol
        refine ⟨Ne.symm (Nat.ne_of_lt (get_index_lt_row u (by omega) (by omega))), ?_⟩
        rw [hsucc]
        exact get_index_ne_col u (by omega))]
      rw [tick_cell_eq, hsucc]
      rw [cell_read_set_ne _ _
        (Nat.ne_of_lt (get_index_lt_row u hcu (by omega)))]
      by_cases hcond : cell_read u.cells (u.get_index (r - 1) c) = Cell.Sand ∧
          u.sand_can_fall r c = true
      · rw [if_pos hcond, if_pos hcond]
        exact cell_read_set_self _ _ _ hlen
      · rw [if_neg hcond, if_neg hcond]
    · have h1 : u.get_index r c ≠ u.get_index (r - 1) w :=
        Ne.symm (Nat.ne_of_lt (get_index_lt_row u (by omega) (by omega)))
      have h2 : u.get_index r c ≠ u.get_index (r - 1 + 1) w := by
        rw [hsucc]; exact get_index_ne_col u hc
      rw [ih (by omega) (by omega) _ (by rw [tick_cell_length]; exact hlen),
        tick_cell_read_other u nx (r - 1) w _ h1 h2]

/-- Scanning all rows below the target row (rows `r - 1` down to `0`, which
the reverse scan visits after row `r`) rewrites the value at the index of
`(r, c)` to `Sand` exactly when a grain falls into `(r, c)` from above. -/
theorem fold_rows_below (u : Universe) (r c : Nat) (hcu : c < u.width) :
    ∀ nx : List Cell, u.get_index r c < nx.length →
      cell_read (fold_rows u ((List.range r).reverse) nx) (u.get_index r c) =
        if fall_into u r c then Cell.Sand else cell_read nx (u.get_index r c) := by
  intro nx hlen
  cases r with
  | zero =>
    rw [if_neg (by simp [fall_into])]
    rfl
  | succ m =>
    rw [range_reverse_succ, fold_rows_cons]
    rw [fold_rows_preserve u _ _ _ (fun row hrow col hcol => by
      have hrow' : row < m := by simpa using hrow
      exact ⟨Ne.symm (Nat.ne_of_lt (get_index_lt_row u hcol (by omega))),
        Ne.symm (Nat.ne_of_lt (get_index_lt_row u hcol (by omega)))⟩)]
    have habove := fold_cols_above u (m + 1) c hcu (by omega) u.width hcu (le_refl _) nx hlen
    have hsub : m + 1 - 1 = m := by omega
    rw [hsub] at habove
    rw [habove]
    have hiff : fall_into u (m + 1) c ↔
        (cell_read u.cells (u.get_index m c) = Cell.Sand ∧
          u.sand_can_fall (m + 1) c = true) := by
      simp [fall_into]
    by_cases hcond : cell_read u.cells (u.get_index m c) = Cell.Sand ∧
        u.sand_can_fall (m + 1) c = true
    · rw [if_pos hcond, if_pos (hiff.mpr hcond)]
    · rw [if_neg hcond, if_neg (fun hf => hcond (hiff.mp hf))]

/-- Locality of the tick scan: after a full `tick`, the cell at `(r, c)`
holds `Sand` if a grain fell into it from directly above during the scan,
and otherwise holds the value computed by the rule dispatch for `(r, c)`
against the frozen current buffer. -/
theorem tick_cells_read (u : Universe) (hlen : u.cells.length = u.width * u.height)
    {r c : Nat} (hr : r < u.height) (hc : c < u.width) :
    cell_read u.tick.cells (u.get_index r c) =
      if fall_into u r c then Cell.Sand else rule_val u r c := by
  have hts : u.tick.cells = fold_rows u ((List.range u.height).reverse) u.cells := rfl
  obtain ⟨A, hA⟩ := range_reverse_split hr
  rw [hts, hA, fold_rows_append, fold_rows_cons]
  have hlenA : (fold_rows u A u.cells).length = u.width * u.height := by
    rw [fold_rows_length]; exact hlen
  have htA : u.get_index r c < (fold_rows u A u.cells).length := by
    rw [hlenA]; exact get_index_lt u hr hc
  have htB : u.get_index r c <
      (fold_cols u r ((List.range u.width).reverse) (fold_rows u A u.cells)).length := by
    rw [fold_cols_length]; exact htA
  rw [fold_rows_below u r c hc _ htB,
    fold_cols_target u r c hc u.width hc _ htA]

/-- Running `tick` preserves the length of the current buffer. -/
theorem tick_cells_length (u : Universe) : u.tick.cells.length = u.cells.length := by
  have : u.tick.cells = fold_rows u ((List.range u.height).reverse) u.cells := rfl
  rw [this, fold_rows_length]

/-! ### Characterizations of the sand rule -/

theorem sand_can_fall_true_iff (u : Universe) {row col : Nat}
    (hcol : col < u.width) (hh : 1 ≤ u.height) :
    u.sand_can_fall row col = true ↔
      row < u.height ∧
        (cell_read u.cells (u.get_index row col) = Cell.Dead ∨
          cell_read u.cells (u.get_index row col) = Cell.Fire) := by
  unfold Universe.sand_can_fall
  by_cases hrow : row < u.height
  · rw [if_neg (by omega)]
    cases hcell : cell_read u.cells (u.get_index row col) <;> simp [hrow, hcell]
  · rw [if_pos (by omega)]
    simp [hrow]

theorem sand_can_fall_eq_false (u : Universe) {row col : Nat}
    (h1 : cell_read u.cells (u.get_index row col) ≠ Cell.Dead)
    (h2 : cell_read u.cells (u.get_index row col) ≠ Cell.Fire) :
    u.sand_can_fall row col = false := by
  unfold Universe.sand_can_fall
  split
  · rfl
  · cases hcell : cell_read u.cells (u.get_index row col) <;> simp_all

theorem rule_val_of_sand (u : Universe) {r c : Nat}
    (h : cell_read u.cells (u.get_index r c) = Cell.Sand) :
    rule_val u r c = if u.sand_can_fall (r + 1) c then Cell.Dead else Cell.Sand := by
  unfold rule_val
  rw [h]

theorem rule_val_of_fire (u : Universe) {r c : Nat}
    (h : cell_read u.cells (u.get_index r c) = Cell.Fire) :
    rule_val u r c = Cell.Dead := by
  unfold rule_val
  rw [h]
  rfl

theorem rule_val_of_dead (u : Universe) {r c : Nat}
    (h : cell_read u.cells (u.get_index r c) = Cell.Dead) :
    rule_val u r c = u.life_state_next_tick r c Cell.Dead := by
  unfold rule_val
  rw [h]

theorem rule_val_of_alive (u : Universe) {r c : Nat}
    (h : cell_read u.cells (u.get_index r c) = Cell.Alive) :
    rule_val u r c = u.life_state_next_tick r c Cell.Alive := by
  unfold rule_val
  rw [h]

theorem rule_val_of_wood (u : Universe) {r c : Nat}
    (h : cell_read u.cells (u.get_index r c) = Cell.Wood) :
    rule_val u r c = u.wood_state_next_tick r c := by
  unfold rule_val
  rw [h]

theorem not_fall_into_of_sand (u : Universe) {r c : Nat}
    (h : cell_read u.cells (u.get_index r c) = Cell.Sand) :
    ¬ fall_into u r c := by
  intro hf
  have := hf.2.2
  rw [sand_can_fall_eq_false u (by simp [h]) (by simp [h])] at this
  cases this

/-! ### Claim theorems -/

/-- C1: for every grid and every cell `(row, col)` currently `Sand`, if the
cell directly below `(row+1, col)` is within bounds and holds `Dead` or
`Fire` in the current buffer, then the Sand rule returns `Dead` and writes
`Sand` directly into the next buffer at the index of `(row+1, col)`
(overriding whatever was there), and after the full tick the destination
holds `Sand` and the vacated cell holds `Dead`; if `(row+1, col)` is out of
bounds or holds any other value, the rule returns `Sand`, leaves the next
buffer unchanged, and after the tick the cell still holds `Sand`. -/
theorem spec_C1_sand_rule (u : Universe) (hlen : u.cells.length = u.width * u.height)
    {row col : Nat} (hrow : row < u.height) (hcol : col < u.width)
    (hSand : cell_read u.cells (u.get_index row col) = Cell.Sand) :
    ((row + 1 < u.height ∧
        (cell_read u.cells (u.get_index (row + 1) col) = Cell.Dead ∨
          cell_read u.cells (u.get_index (row + 1) col) = Cell.Fire)) →
      u.sand_state_next_tick row col =
          (Cell.Dead, u.nexts.set (u.get_index (row + 1) col) Cell.Sand) ∧
        cell_read u.tick.cells (u.get_index (row + 1) col) = Cell.Sand ∧
        cell_read u.tick.cells (u.get_index row col) = Cell.Dead) ∧
    (¬(row + 1 < u.height ∧
        (cell_read u.cells (u.get_index (row + 1) col) = Cell.Dead ∨
          cell_read u.cells (u.get_index (row + 1) col) = Cell.Fire)) →
      u.sand_state_next_tick row col = (Cell.Sand, u.nexts) ∧
        cell_read u.tick.cells (u.get_index row col) = Cell.Sand) := by
  have hh : 1 ≤ u.height := by omega
  have hfall := @sand_can_fall_true_iff u (row + 1) col hcol hh
  constructor
  · intro hcond
    have hcf : u.sand_can_fall (row + 1) col = true := hfall.mpr hcond
    refine ⟨by simp [Universe.sand_state_next_tick, hcf], ?_, ?_⟩
    · rw [tick_cells_read u hlen hcond.1 hcol,
        if_pos (show fall_into u (row + 1) col from ⟨by omega, by simpa using hSand, hcf⟩)]
    · rw [tick_cells_read u hlen hrow hcol, if_neg (not_fall_into_of_sand u hSand),
        rule_val_of_sand u hSand, if_pos hcf]
  · intro hcond
    have hcf : u.sand_can_fall (row + 1) col = false := by
      cases hb : u.sand_can_fall (row + 1) col
      · rfl
      · exact absurd (hfall.mp hb) hcond
    refine ⟨by simp [Universe.sand_state_next_tick, hcf], ?_⟩
    rw [tick_cells_read u hlen hrow hcol, if_neg (not_fall_into_of_sand u hSand),
      rule_val_of_sand u hSand, hcf]
    rfl

/-- Witness for C1: in the 1-wide, 2-tall grid with `Sand` above `Dead`, the
hypotheses of `spec_C1_sand_rule` hold at `(0, 0)` and the grain has moved to
`(1, 0)` after one tick. -/
theorem spec_C1_sand_rule_witness :
    cell_read ex_sand_over_dead.cells (ex_sand_over_dead.get_index 0 0) = Cell.Sand ∧
    cell_read ex_sand_over_dead.tick.cells (ex_sand_over_dead.get_index 1 0) = Cell.Sand ∧
    cell_read ex_sand_over_dead.tick.cells (ex_sand_over_dead.get_index 0 0) = Cell.Dead := by
  have h := (@spec_C1_sand_rule ex_sand_over_dead (by decide) 0 0
    (by decide) (by decide) (by decide)).1 (by decide)
  exact ⟨by decide, h.2.1, h.2.2⟩

/-- C7 counterexample: in the 1-wide, 2-tall grid `[Sand, Fire]`, the cell
`(1, 0)` holds `Fire` before the tick, yet after exactly one tick it holds
`Sand` (the grain above fell into it), not `Dead` as the claim states. -/
theorem spec_C7_counterexample :
    cell_read ex_sand_over_fire.cells (ex_sand_over_fire.get_index 1 0) = Cell.Fire ∧
    cell_read ex_sand_over_fire.tick.cells (ex_sand_over_fire.get_index 1 0) = Cell.Sand := by
  decide

/-- C7 (amended): the Fire rule itself unconditionally computes `Dead`, and
after exactly one tick a cell that held `Fire` holds `Dead` unless the cell
directly above held `Sand`, in which case the grain falls in and the cell
holds `Sand`. -/
theorem spec_C7_fire_rule (u : Universe) (hlen : u.cells.length = u.width * u.height)
    {r c : Nat} (hr : r < u.height) (hc : c < u.width)
    (hFire : cell_read u.cells (u.get_index r c) = Cell.Fire) :
    u.fire_state_next_tick r c = Cell.Dead ∧
    cell_read u.tick.cells (u.get_index r c) =
      (if 1 ≤ r ∧ cell_read u.cells (u.get_index (r - 1) c) = Cell.Sand
       then Cell.Sand else Cell.Dead) := by
  refine ⟨rfl, ?_⟩
  rw [tick_cells_read u hlen hr hc]
  have hcf : u.sand_can_fall r c = true :=
    (sand_can_fall_true_iff u hc (by omega)).mpr ⟨hr, Or.inr hFire⟩
  by_cases hcond : 1 ≤ r ∧ cell_read u.cells (u.get_index (r - 1) c) = Cell.Sand
  · rw [if_pos (show fall_into u r c from ⟨hcond.1, hcond.2, hcf⟩), if_pos hcond]
  · rw [if_neg (fun hf => hcond ⟨hf.1, hf.2.1⟩), if_neg hcond, rule_val_of_fire u hFire]

/-- Witness for C7 (amended): applying the theorem in the `[Sand, Fire]`
grid at the Fire cell `(1, 0)`, whose upper neighbour holds `Sand`. -/
theorem spec_C7_fire_rule_witness :
    cell_read ex_sand_over_fire.cells (ex_sand_over_fire.get_index 1 0) = Cell.Fire ∧
    ex_sand_over_fire.fire_state_next_tick 1 0 = Cell.Dead ∧
    cell_read ex_sand_over_fire.tick.cells (ex_sand_over_fire.get_index 1 0) =
      (if 1 ≤ 1 ∧ cell_read ex_sand_over_fire.cells (ex_sand_over_fire.get_index 0 0) = Cell.Sand
       then Cell.Sand else Cell.Dead) := by
  have h := @spec_C7_fire_rule ex_sand_over_fire (by decide) 1 0
    (by decide) (by decide) (by decide)
  exact ⟨by decide, h.1, h.2⟩

/-- C9: `tick` is a deterministic function of the grid state: two universes
agreeing on width, height and the current buffer (the `nexts` scratch
buffers may differ) produce identical current buffers after one tick. -/
theorem spec_C9_determinism (u1 u2 : Universe) (hw : u1.width = u2.width)
    (hh : u1.height = u2.height) (hc : u1.cells = u2.cells) :
    u1.tick.cells = u2.tick.cells := by
  obtain ⟨w1, h1, c1, n1⟩ := u1
  obtain ⟨w2, h2, c2, n2⟩ := u2
  obtain rfl : w1 = w2 := hw
  obtain rfl : h1 = h2 := hh
  obtain rfl : c1 = c2 := hc
  have hcell : Universe.tick_cell ⟨w1, h1, c1, n1⟩ = Universe.tick_cell ⟨w1, h1, c1, n2⟩ := by
    funext nx row col
    rfl
  show Universe.tick_scan ⟨w1, h1, c1, n1⟩ = Universe.tick_scan ⟨w1, h1, c1, n2⟩
  unfold Universe.tick_scan
  rw [hcell]

/-- Witness for C9: two copies of the `[Sand, Dead]` column that differ only
in the scratch buffer tick to the same current buffer. -/
theorem spec_C9_determinism_witness :
    ex_sand_over_dead.cells = ex_sand_over_dead_alt.cells ∧
    ex_sand_over_dead.nexts ≠ ex_sand_over_dead_alt.nexts ∧
    ex_sand_over_dead.tick.cells = ex_sand_over_dead_alt.tick.cells :=
  ⟨by decide, by decide,
    spec_C9_determinism ex_sand_over_dead ex_sand_over_dead_alt rfl rfl rfl⟩

/-- A successful `set_cells` leaves the dimensions, the length of the current
buffer and the scratch buffer unchanged. -/
theorem set_cells_some_fields (u u' : Universe) (coords : List (Nat × Nat)) (cell : Cell)
    (h : u.set_cells coords cell = some u') :
    u'.width = u.width ∧ u'.height = u.height ∧
      u'.cells.length = u.cells.length ∧ u'.nexts = u.nexts := by
  induction coords generalizing u with
  | nil =>
    obtain rfl : u = u' := by simpa [Universe.set_cells] using h
    exact ⟨rfl, rfl, rfl, rfl⟩
  | cons p rest ih =>
    obtain ⟨r, c⟩ := p
    unfold Universe.set_cells at h
    by_cases hidx : u.get_index r c < u.cells.length
    · rw [if_pos hidx] at h
      obtain ⟨hw, hh, hl, hn⟩ := ih _ h
      exact ⟨hw, hh, by simpa using hl, hn⟩
    · rw [if_neg hidx] at h
      cases h

/-- C3 counterexample: in the 2x2 all-Dead grid, `set_cells` with the single
coordinate `(0, 2)` — whose column equals the width, one past the valid
maximum — does not fail at all: there is no bounds check, the write succeeds
and lands at linear index `2`, which is the cell `(1, 0)`, not the addressed
location.  This refutes the claimed `OutOfBounds` failure. -/
theorem spec_C3_counterexample :
    ex_2x2_dead.set_cells [(0, 2)] Cell.Alive =
      some { width := 2, height := 2
             cells := [Cell.Dead, Cell.Dead, Cell.Alive, Cell.Dead]
             nexts := [Cell.Dead, Cell.Dead, Cell.Dead, Cell.Dead] } := by
  rfl

/-- C3 (amended): `set_cells` performs no bounds check and never reports an
`OutOfBounds` error (no such error exists in the source); each coordinate is
written at linear index `row * width + col` of the current buffer, and when
every coordinate satisfies `row ≤ height - 1` and `col ≤ width - 1` the call
succeeds, assigns `cell` to each addressed location, and leaves every
unaddressed index, the dimensions and the scratch buffer unchanged. -/
theorem spec_C3_set_cells (u : Universe) (hlen : u.cells.length = u.width * u.height)
    (coords : List (Nat × Nat)) (cell : Cell)
    (hin : ∀ p ∈ coords, p.1 < u.height ∧ p.2 < u.width) :
    ∃ u', u.set_cells coords cell = some u' ∧
      u'.width = u.width ∧ u'.height = u.height ∧ u'.nexts = u.nexts ∧
      u'.cells.length = u.cells.length ∧
      (∀ p ∈ coords, cell_read u'.cells (u.get_index p.1 p.2) = cell) ∧
      (∀ t : Nat, (∀ p ∈ coords, t ≠ u.get_index p.1 p.2) →
        cell_read u'.cells t = cell_read u.cells t) := by
  induction coords generalizing u with
  | nil =>
    exact ⟨u, rfl, rfl, rfl, rfl, rfl, by simp, fun t _ => rfl⟩
  | cons p rest ih =>
    obtain ⟨r, c⟩ := p
    have hrc := hin (r, c) (List.mem_cons_self _ _)
    have hidx : u.get_index r c < u.cells.length := by
      rw [hlen]; exact get_index_lt u hrc.1 hrc.2
    have hlen2 : (u.cells.set (u.get_index r c) cell).length = u.width * u.height := by
      rw [List.length_set]; exact hlen
    obtain ⟨u', h1, h2, h3, h4, h5, h6, h7⟩ :=
      ih { u with cells := u.cells.set (u.get_index r c) cell } hlen2
        (fun q hq => hin q (List.mem_cons_of_mem _ hq))
    refine ⟨u', ?_, h2, h3, h4, by simpa using h5, ?_, ?_⟩
    · show u.set_cells ((r, c) :: rest) cell = some u'
      unfold Universe.set_cells
      rw [if_pos hidx]
      exact h1
    · intro q hq
      rcases List.mem_cons.mp hq with hq1 | hq2
      · obtain rfl : q = (r, c) := hq1
        by_cases hrest : ∀ p ∈ rest, u.get_index r c ≠ u.get_index p.1 p.2
        · rw [h7 _ hrest]
          exact cell_read_set_self _ _ _ hidx
        · push_neg at hrest
          obtain ⟨q', hq', heq⟩ := hrest
          rw [heq]
          exact h6 q' hq'
      · exact h6 q hq2
    · intro t ht
      rw [h7 t (fun p hp => ht p (List.mem_cons_of_mem _ hp))]
      exact cell_read_set_ne _ _ (fun he => ht (r, c) (List.mem_cons_self _ _) he.symm)

/-- Witness for C3 (amended): two in-bounds coordinates on the 2x2 grid are
written successfully. -/
theorem spec_C3_set_cells_witness :
    ∃ u', ex_2x2_dead.set_cells [(1, 1), (0, 0)] Cell.Wood = some u' ∧
      cell_read u'.cells (ex_2x2_dead.get_index 1 1) = Cell.Wood ∧
      cell_read u'.cells (ex_2x2_dead.get_index 0 0) = Cell.Wood := by
  obtain ⟨u', h1, _, _, _, _, h6, _⟩ :=
    spec_C3_set_cells ex_2x2_dead (by decide) [(1, 1), (0, 0)] Cell.Wood (by decide)
  exact ⟨u', h1, h6 (1, 1) (by decide), h6 (0, 0) (by decide)⟩

/-- C4 counterexample: `set_width` on the demo grid resets the current buffer
but leaves the scratch buffer `nexts` at its old length, so the claimed
invariant `next.length = width * height` fails on a reachable universe
(after `life_demo` followed by `set_width 1`: `nexts` has 4096 entries while
`width * height = 64`). -/
theorem spec_C4_counterexample :
    Reachable (Universe.life_demo.set_width 1) ∧
    (Universe.life_demo.set_width 1).nexts.length ≠
      (Universe.life_demo.set_width 1).width * (Universe.life_demo.set_width 1).height := by
  refine ⟨Reachable.set_width 1 Reachable.life_demo, ?_⟩
  simp only [Universe.set_width, Universe.life_demo, List.length_map, List.length_range]
  omega

/-- C4 (amended): for every reachable universe the current buffer always has
exactly `width * height` entries, and a `tick` (re)establishes the same for
the scratch buffer; however `set_width` / `set_height` leave the scratch
buffer untouched, so `nexts.length = width * height` can fail between a
resize and the next tick. -/
theorem spec_C4_buffer_length (u : Universe) (h : Reachable u) :
    u.cells.length = u.width * u.height ∧
    u.tick.nexts.length = u.tick.width * u.tick.height := by
  have main : ∀ v : Universe, Reachable v → v.cells.length = v.width * v.height := by
    intro v hv
    induction hv with
    | life_demo => simp only [Universe.life_demo, List.length_map, List.length_range]
    | fire_demo => simp only [Universe.fire_demo, List.length_map, List.length_range]
    | sand_demo => simp only [Universe.sand_demo, List.length_map, List.length_range]
    | tick _ ih =>
      rw [show ∀ w : Universe, w.tick.cells.length = w.cells.length from tick_cells_length]
      exact ih
    | set_cells _ hsome ih =>
      obtain ⟨hw, hh, hl, _⟩ := set_cells_some_fields _ _ _ _ hsome
      rw [hw, hh, hl]
      exact ih
    | set_width w _ _ => simp only [Universe.set_width, List.length_map, List.length_range]
    | set_height hh _ _ => simp only [Universe.set_height, List.length_map, List.length_range]
  refine ⟨main u h, ?_⟩
  have h2 : u.tick.nexts.length = u.cells.length := by
    show (Universe.tick_scan u).length = u.cells.length
    rw [tick_scan_eq_fold_rows, fold_rows_length]
  rw [h2]
  exact main u h

/-- Witness for C4 (amended): the invariant holds at the demo grid itself. -/
theorem spec_C4_buffer_length_witness :
    Universe.life_demo.cells.length = Universe.life_demo.width * Universe.life_demo.height :=
  (spec_C4_buffer_length Universe.life_demo Reachable.life_demo).1

/-- C8 counterexample: `set_width 0` is accepted without any check, so a
reachable universe has a zero dimension, refuting both the claimed
`InvalidDimension` failure and the claimed preservation of positivity. -/
theorem spec_C8_counterexample :
    Reachable (Universe.life_demo.set_width 0) ∧
    (Universe.life_demo.set_width 0).width = 0 :=
  ⟨Reachable.set_width 0 Reachable.life_demo, rfl⟩

/-- C8 (amended): the three demo constructors (the only constructors in the
source; there is no `create(width, height, layout)` and no `InvalidDimension`
error) produce the fixed positive dimensions 64x64, while `set_width` and
`set_height` install any requested value unchecked — including zero. -/
theorem spec_C8_dimensions :
    (0 < Universe.life_demo.width ∧ 0 < Universe.life_demo.height) ∧
    (0 < Universe.fire_demo.width ∧ 0 < Universe.fire_demo.height) ∧
    (0 < Universe.sand_demo.width ∧ 0 < Universe.sand_demo.height) ∧
    (∀ (u : Universe) (w : Nat),
      (u.set_width w).width = w ∧ (u.set_width w).height = u.height) ∧
    (∀ (u : Universe) (h : Nat),
      (u.set_height h).height = h ∧ (u.set_height h).width = u.width) :=
  ⟨⟨by decide, by decide⟩, ⟨by decide, by decide⟩, ⟨by decide, by decide⟩,
    fun _ _ => ⟨rfl, rfl⟩, fun _ _ => ⟨rfl, rfl⟩⟩

/-! ### The scan order of `tick` -/

theorem foldl_flatMap {α β γ : Type} (g : γ → List α) (f : β → α → β) :
    ∀ (l : List γ) (init : β),
      (l.flatMap g).foldl f init = l.foldl (fun a r => (g r).foldl f a) init := by
  intro l
  induction l with
  | nil => intro init; rfl
  | cons a l ih =>
    intro init
    rw [List.flatMap_cons, List.foldl_append, List.foldl_cons, ih]

theorem pairwise_flatMap {α γ : Type} {R : α → α → Prop} (g : γ → List α) :
    ∀ l : List γ, (∀ x ∈ l, (g x).Pairwise R) →
      l.Pairwise (fun a b => ∀ x ∈ g a, ∀ y ∈ g b, R x y) →
      (l.flatMap g).Pairwise R := by
  intro l
  induction l with
  | nil => intro _ _; exact List.Pairwise.nil
  | cons a l ih =>
    intro h1 h2
    obtain ⟨hrel, h2'⟩ := List.pairwise_cons.mp h2
    rw [List.flatMap_cons, List.pairwise_append]
    refine ⟨h1 a (List.mem_cons_self a l),
      ih (fun x hx => h1 x (List.mem_cons_of_mem _ hx)) h2', ?_⟩
    intro x hx y hy
    rw [List.mem_flatMap] at hy
    obtain ⟨b, hb, hyb⟩ := hy
    exact hrel b hb x hx y hyb

theorem scan_order_mem (h w : Nat) (p : Nat × Nat) :
    p ∈ scan_order h w ↔ p.1 < h ∧ p.2 < w := by
  unfold scan_order
  rw [List.mem_flatMap]
  constructor
  · rintro ⟨r, hr, hp⟩
    rw [List.mem_reverse, List.mem_range] at hr
    rw [List.mem_map] at hp
    obtain ⟨c, hc, rfl⟩ := hp
    rw [List.mem_reverse, List.mem_range] at hc
    exact ⟨hr, hc⟩
  · rintro ⟨h1, h2⟩
    refine ⟨p.1, by rw [List.mem_reverse, List.mem_range]; exact h1, ?_⟩
    rw [List.mem_map]
    exact ⟨p.2, by rw [List.mem_reverse, List.mem_range]; exact h2, rfl⟩

theorem scan_order_nodup (h w : Nat) : (scan_order h w).Nodup := by
  unfold scan_order
  rw [List.nodup_flatMap]
  refine ⟨fun r _ => ?_, ?_⟩
  · refine List.Nodup.map (fun c1 c2 hcc => ?_) (by rw [List.nodup_reverse]; exact List.nodup_range w)
    simpa using hcc
  · have hnd : ((List.range h).reverse).Nodup := by
      rw [List.nodup_reverse]; exact List.nodup_range h
    refine hnd.imp ?_
    intro a b hab p hpa hpb
    rw [List.mem_map] at hpa hpb
    obtain ⟨c1, _, rfl⟩ := hpa
    obtain ⟨c2, _, h2⟩ := hpb
    exact hab (congrArg Prod.fst h2).symm

theorem scan_order_pairwise (h w : Nat) :
    (scan_order h w).Pairwise (fun p q => q.1 < p.1 ∨ (p.1 = q.1 ∧ q.2 < p.2)) := by
  unfold scan_order
  apply pairwise_flatMap
  · intro r _
    rw [List.pairwise_map]
    have hlt : ((List.range w).reverse).Pairwise (fun a b => b < a) := by
      rw [List.pairwise_reverse]
      exact List.pairwise_lt_range w
    exact hlt.imp (fun hab => Or.inr ⟨rfl, hab⟩)
  · have hlt : ((List.range h).reverse).Pairwise (fun a b => b < a) := by
      rw [List.pairwise_reverse]
      exact List.pairwise_lt_range h
    refine hlt.imp ?_
    intro a b hab x hx y hy
    rw [List.mem_map] at hx hy
    obtain ⟨c1, _, rfl⟩ := hx
    obtain ⟨c2, _, rfl⟩ := hy
    exact Or.inl hab

/-- C2: `tick` starts the scan from a full copy of the current buffer, visits
every in-bounds `(row, col)` pair exactly once, in reverse row order and
reverse column order within a row (the `scan_order` list: later-visited
pairs are reverse-lexicographically smaller), applies the per-material rule
step `tick_cell` at each visited pair writing into `next[row*width+col]`,
and finally replaces the current buffer (and the stored scratch buffer) with
the scan result, keeping the dimensions. -/
theorem spec_C2_tick_driver (u : Universe) :
    (u.tick.cells =
        (scan_order u.height u.width).foldl
          (fun nx p => Universe.tick_cell u nx p.1 p.2) u.cells ∧
      u.tick.nexts = u.tick.cells ∧
      u.tick.width = u.width ∧ u.tick.height = u.height) ∧
    (scan_order u.height u.width).Nodup ∧
    (∀ p : Nat × Nat, p ∈ scan_order u.height u.width ↔ p.1 < u.height ∧ p.2 < u.width) ∧
    (scan_order u.height u.width).Pairwise
      (fun p q => q.1 < p.1 ∨ (p.1 = q.1 ∧ q.2 < p.2)) := by
  refine ⟨⟨?_, rfl, rfl, rfl⟩, scan_order_nodup _ _,
    fun p => scan_order_mem _ _ p, scan_order_pairwise _ _⟩
  show Universe.tick_scan u = _
  unfold scan_order
  rw [foldl_flatMap]
  simp only [List.foldl_map]
  rfl

/-! ### The wood ignition rule -/

theorem wrapping_sub_one {r : Nat} (h1 : 1 ≤ r) (h2 : r < 2 ^ 32) :
    wrapping_sub_u32 r 1 = r - 1 := by
  unfold wrapping_sub_u32
  have he : r + (2 ^ 32 - 1) = (r - 1) + 2 ^ 32 := by omega
  rw [he, Nat.add_mod_right, Nat.mod_eq_of_lt (by omega)]

theorem wrapping_sub_one_zero : wrapping_sub_u32 0 1 = 2 ^ 32 - 1 := by
  unfold wrapping_sub_u32
  rw [Nat.zero_add]
  exact Nat.mod_eq_of_lt (by omega)

theorem is_fire_true_iff (u : Universe) {row col : Nat}
    (hh : 1 ≤ u.height) (hw : 1 ≤ u.width) :
    u.is_fire row col = true ↔
      row < u.height ∧ col < u.width ∧
        cell_read u.cells (u.get_index row col) = Cell.Fire := by
  unfold Universe.is_fire
  by_cases hb : row > u.height - 1 ∨ col > u.width - 1
  · rw [if_pos hb]
    constructor
    · intro hf
      exact absurd hf (by simp)
    · rintro ⟨hr, hc, _⟩
      exfalso
      rcases hb with hb | hb <;> omega
  · rw [if_neg hb]
    push_neg at hb
    simp only [decide_eq_true_eq]
    constructor
    · intro hfire
      exact ⟨by omega, by omega, hfire⟩
    · rintro ⟨_, _, hfire⟩
      exact hfire

theorem is_fire_top_oob (u : Universe) (col : Nat) (hh : u.height < 2 ^ 32) :
    u.is_fire (wrapping_sub_u32 0 1) col = false := by
  unfold Universe.is_fire
  rw [wrapping_sub_one_zero, if_pos]
  left
  omega

theorem is_fire_left_oob (u : Universe) (row : Nat) (hw : u.width < 2 ^ 32) :
    u.is_fire row (wrapping_sub_u32 0 1) = false := by
  unfold Universe.is_fire
  rw [wrapping_sub_one_zero, if_pos]
  right
  omega

theorem is_fire_neighbour_true_iff (u : Universe) {row col : Nat}
    (hrow : row < u.height) (hcol : col < u.width)
    (hh32 : u.height < 2 ^ 32) (hw32 : u.width < 2 ^ 32) :
    u.is_fire_neighbour row col = true ↔
      ((1 ≤ row ∧ cell_read u.cells (u.get_index (row - 1) col) = Cell.Fire) ∨
       (row + 1 < u.height ∧ cell_read u.cells (u.get_index (row + 1) col) = Cell.Fire) ∨
       (1 ≤ col ∧ cell_read u.cells (u.get_index row (col - 1)) = Cell.Fire) ∨
       (col + 1 < u.width ∧ cell_read u.cells (u.get_index row (col + 1)) = Cell.Fire)) := by
  have hh : 1 ≤ u.height := by omega
  have hw : 1 ≤ u.width := by omega
  have htop : u.is_fire (wrapping_sub_u32 row 1) col = true ↔
      (1 ≤ row ∧ cell_read u.cells (u.get_index (row - 1) col) = Cell.Fire) := by
    rcases Nat.eq_zero_or_pos row with rfl | hpos
    · rw [is_fire_top_oob u col hh32]
      simp
    · rw [wrapping_sub_one hpos (by omega), is_fire_true_iff u hh hw]
      constructor
      · rintro ⟨_, _, hf⟩
        exact ⟨hpos, hf⟩
      · rintro ⟨_, hf⟩
        exact ⟨by omega, hcol, hf⟩
  have hbot : u.is_fire (row + 1) col = true ↔
      (row + 1 < u.height ∧ cell_read u.cells (u.get_index (row + 1) col) = Cell.Fire) := by
    rw [is_fire_true_iff u hh hw]
    constructor
    · rintro ⟨h1, _, hf⟩
      exact ⟨h1, hf⟩
    · rintro ⟨h1, hf⟩
      exact ⟨h1, hcol, hf⟩
  have hleft : u.is_fire row (wrapping_sub_u32 col 1) = true ↔
      (1 ≤ col ∧ cell_read u.cells (u.get_index row (col - 1)) = Cell.Fire) := by
    rcases Nat.eq_zero_or_pos col with rfl | hpos
    · rw [is_fire_left_oob u row hw32]
      simp
    · rw [wrapping_sub_one hpos (by omega), is_fire_true_iff u hh hw]
      constructor
      · rintro ⟨_, _, hf⟩
        exact ⟨hpos, hf⟩
      · rintro ⟨_, hf⟩
        exact ⟨hrow, by omega, hf⟩
  have hright : u.is_fire row (col + 1) = true ↔
      (col + 1 < u.width ∧ cell_read u.cells (u.get_index row (col + 1)) = Cell.Fire) := by
    rw [is_fire_true_iff u hh hw]
    constructor
    · rintro ⟨_, h2, hf⟩
      exact ⟨h2, hf⟩
    · rintro ⟨h2, hf⟩
      exact ⟨hrow, h2, hf⟩
  unfold Universe.is_fire_neighbour
  simp only [Bool.or_eq_true, htop, hbot, hleft, hright]
  simp only [or_assoc]

/-- C6: a `Wood` cell becomes `Fire` under the rule if and only if at least
one of its four orthogonal neighbours — computed without wrapping, an
out-of-bounds neighbour counting as not fire — currently holds `Fire`, and
otherwise it stays `Wood`.  (The `u32` wrap of `row - 1` / `col - 1` at the
edges lands far outside any representable grid, so it acts as a bounds
check; the hypotheses `height, width < 2^32` state that the dimensions are
`u32` values.) -/
theorem spec_C6_wood_rule (u : Universe) {row col : Nat}
    (hrow : row < u.height) (hcol : col < u.width)
    (hh32 : u.height < 2 ^ 32) (hw32 : u.width < 2 ^ 32)
    (_hWood : cell_read u.cells (u.get_index row col) = Cell.Wood) :
    (u.wood_state_next_tick row col = Cell.Fire ↔
      ((1 ≤ row ∧ cell_read u.cells (u.get_index (row - 1) col) = Cell.Fire) ∨
       (row + 1 < u.height ∧ cell_read u.cells (u.get_index (row + 1) col) = Cell.Fire) ∨
       (1 ≤ col ∧ cell_read u.cells (u.get_index row (col - 1)) = Cell.Fire) ∨
       (col + 1 < u.width ∧ cell_read u.cells (u.get_index row (col + 1)) = Cell.Fire))) ∧
    (u.wood_state_next_tick row col = Cell.Wood ↔
      ¬((1 ≤ row ∧ cell_read u.cells (u.get_index (row - 1) col) = Cell.Fire) ∨
        (row + 1 < u.height ∧ cell_read u.cells (u.get_index (row + 1) col) = Cell.Fire) ∨
        (1 ≤ col ∧ cell_read u.cells (u.get_index row (col - 1)) = Cell.Fire) ∨
        (col + 1 < u.width ∧ cell_read u.cells (u.get_index row (col + 1)) = Cell.Fire))) := by
  have hiff := is_fire_neighbour_true_iff u hrow hcol hh32 hw32
  unfold Universe.wood_state_next_tick
  by_cases hb : u.is_fire_neighbour row col = true
  · rw [if_pos hb]
    exact ⟨iff_of_true rfl (hiff.mp hb),
      iff_of_false (by simp) (not_not_intro (hiff.mp hb))⟩
  · rw [if_neg hb]
    have hnd := fun hd => hb (hiff.mpr hd)
    exact ⟨iff_of_false (by simp) hnd, iff_of_true rfl hnd⟩

/-- Witness for C6: in the 1-wide column `[Fire, Wood, Dead]`, the Wood cell
`(1, 0)` has Fire directly above and ignites. -/
theorem spec_C6_wood_rule_witness :
    cell_read ex_fire_wood.cells (ex_fire_wood.get_index 1 0) = Cell.Wood ∧
    ex_fire_wood.wood_state_next_tick 1 0 = Cell.Fire := by
  have h := @spec_C6_wood_rule ex_fire_wood 1 0 (by decide) (by decide)
    (by decide) (by decide) (by decide)
  exact ⟨by decide, h.1.mpr (Or.inl ⟨by decide, by decide⟩)⟩

/-! ### The Life neighbourhood -/

theorem toNat_intMod_natCast (n h : Nat) : (((n : Int)) % (h : Int)).toNat = n % h := by
  rw [← Int.natCast_mod, Int.toNat_natCast]

theorem toNat_intMod_add_negone {r h : Nat} (hh : 1 ≤ h) :
    (((r : Int) + (-1)) % (h : Int)).toNat = (r + (h - 1)) % h := by
  have h1 : ((r + (h - 1) : Nat) : Int) = (r : Int) + (-1) + (h : Int) * 1 := by
    push_cast
    omega
  rw [show ((r : Int) + (-1)) % (h : Int) = (((r + (h - 1) : Nat) : Int)) % (h : Int) by
      rw [h1, Int.add_mul_emod_self_left],
    ← Int.natCast_mod, Int.toNat_natCast]

theorem toNat_intMod_add_one (r h : Nat) :
    (((r : Int) + 1) % (h : Int)).toNat = (r + 1) % h := by
  rw [show ((r : Int) + 1) = ((r + 1 : Nat) : Int) by push_cast; ring,
    ← Int.natCast_mod, Int.toNat_natCast]

theorem toNat_intMod_add_zero (r h : Nat) :
    (((r : Int) + 0) % (h : Int)).toNat = (r + 0) % h := by
  rw [show ((r : Int) + 0) = ((r + 0 : Nat) : Int) by push_cast; ring,
    ← Int.natCast_mod, Int.toNat_natCast]

/-- On a grid with both dimensions at least 2, the neighbour count computed
by the source loop (deltas `[height-1, 0, 1] x [width-1, 0, 1]`, skipping
the all-zero iteration) agrees with the spec description (the 8 signed delta
pairs, toroidal wrap).  On 1-wide or 1-tall grids the two differ: there the
source delta `height-1` (resp. `width-1`) collapses to the literal `0` and
extra iterations are skipped. -/
theorem live_neighbour_count_eq_spec (u : Universe) {row col : Nat}
    (hh2 : 2 ≤ u.height) (hw2 : 2 ≤ u.width) :
    u.live_neighbour_count row col = spec_live_neighbour_count u row col := by
  have e1 := @toNat_intMod_add_negone row u.height (by omega)
  have e2 := toNat_intMod_add_one row u.height
  have e3 := toNat_intMod_add_zero row u.height
  have f1 := @toNat_intMod_add_negone col u.width (by omega)
  have f2 := toNat_intMod_add_one col u.width
  have f3 := toNat_intMod_add_zero col u.width
  have c1 : (u.height - 1 = 0) = False := eq_false (by omega)
  have c2 : (u.width - 1 = 0) = False := eq_false (by omega)
  have c3 : ((1 : Nat) = 0) = False := eq_false (by omega)
  have c4 : ((0 : Nat) = 0) = True := eq_true rfl
  unfold Universe.live_neighbour_count spec_live_neighbour_count
  simp only [List.foldl_cons, List.foldl_nil, c1, c2, c3, c4, false_and, and_false,
    and_true, true_and, if_true, if_false, e1, e2, e3, f1, f2, f3]

/-- C5 counterexample: in the 1-wide, 2-tall grid `[Alive, Dead]`, the claim
says the Alive cell `(0, 0)` sees 2 of its "8 toroidal neighbours" Alive
(the horizontal deltas wrap onto the cell itself), so it should stay Alive;
the source loop skips the extra zero deltas of the degenerate width, counts
only 1, and kills the cell. -/
theorem spec_C5_counterexample :
    cell_read ex_w1h2_alive.cells (ex_w1h2_alive.get_index 0 0) = Cell.Alive ∧
    spec_live_neighbour_count ex_w1h2_alive 0 0 = 2 ∧
    ex_w1h2_alive.live_neighbour_count 0 0 = 1 ∧
    ex_w1h2_alive.life_state_next_tick 0 0 Cell.Alive = Cell.Dead := by
  refine ⟨by decide, by decide, by decide, by decide⟩

/-- C5 (amended): on every grid whose width and height are both at least 2,
a cell currently Alive or Dead follows the classic Life table with `n` the
number of the 8 toroidal delta-neighbours that are Alive: Alive with `n < 2`
dies, Alive with `n` in `{2, 3}` survives, Alive with `n > 3` dies, Dead
with `n = 3` is born, Dead otherwise stays Dead.  (On 1-wide or 1-tall
grids the source count deviates from the 8-neighbour description.) -/
theorem spec_C5_life_rule (u : Universe) {row col : Nat} (cell : Cell)
    (_hrow : row < u.height) (_hcol : col < u.width)
    (hh2 : 2 ≤ u.height) (hw2 : 2 ≤ u.width)
    (_hcell : cell_read u.cells (u.get_index row col) = cell) :
    (cell = Cell.Alive →
      ((spec_live_neighbour_count u row col < 2 →
          u.life_state_next_tick row col cell = Cell.Dead) ∧
        (spec_live_neighbour_count u row col = 2 ∨ spec_live_neighbour_count u row col = 3 →
          u.life_state_next_tick row col cell = Cell.Alive) ∧
        (spec_live_neighbour_count u row col > 3 →
          u.life_state_next_tick row col cell = Cell.Dead))) ∧
    (cell = Cell.Dead →
      ((spec_live_neighbour_count u row col = 3 →
          u.life_state_next_tick row col cell = Cell.Alive) ∧
        (spec_live_neighbour_count u row col ≠ 3 →
          u.life_state_next_tick row col cell = Cell.Dead))) := by
  have heq := @live_neighbour_count_eq_spec u row col hh2 hw2
  unfold Universe.life_state_next_tick
  rw [heq]
  constructor
  · rintro rfl
    refine ⟨fun h => ?_, fun h => ?_, fun h => ?_⟩
    · rw [if_pos ⟨rfl, h⟩]
    · rw [if_neg (by rintro ⟨-, hlt⟩; omega), if_pos ⟨rfl, h⟩]
    · rw [if_neg (by rintro ⟨-, hlt⟩; omega), if_neg (by rintro ⟨-, h23⟩; omega),
        if_pos ⟨rfl, h⟩]
  · rintro rfl
    constructor
    · intro h
      rw [if_neg (by rintro ⟨hda, -⟩; cases hda), if_neg (by rintro ⟨hda, -⟩; cases hda),
        if_neg (by rintro ⟨hda, -⟩; cases hda), if_pos ⟨rfl, h⟩]
    · intro h
      rw [if_neg (by rintro ⟨hda, -⟩; cases hda), if_neg (by rintro ⟨hda, -⟩; cases hda),
        if_neg (by rintro ⟨hda, -⟩; cases hda), if_neg (by rintro ⟨-, h3⟩; exact h h3)]

/-- Witness for C5 (amended): the centre of a vertical blinker in a 3x3 grid
has exactly 2 live neighbours and survives. -/
theorem spec_C5_life_rule_witness :
    cell_read ex_blinker.cells (ex_blinker.get_index 1 1) = Cell.Alive ∧
    spec_live_neighbour_count ex_blinker 1 1 = 2 ∧
    ex_blinker.life_state_next_tick 1 1 Cell.Alive = Cell.Alive := by
  have h := @spec_C5_life_rule ex_blinker 1 1 Cell.Alive
    (by decide) (by decide) (by decide) (by decide) (by decide)
  exact ⟨by decide, by decide, (h.1 rfl).2.1 (Or.inl (by decide))⟩

/-! ### Counting Sand cells -/

theorem count_eq_sum_read (l : List Cell) (a : Cell) :
    l.count a = (Finset.range l.length).sum (fun i => if cell_read l i = a then 1 else 0) := by
  induction l with
  | nil => simp
  | cons b t ih =>
    rw [List.length_cons, Finset.sum_range_succ']
    have h1 : ∀ i : Nat,
        (if cell_read (b :: t) (i + 1) = a then (1 : Nat) else 0) =
          (if cell_read t i = a then (1 : Nat) else 0) := fun i => rfl
    simp only [h1]
    rw [← ih]
    have h0 : cell_read (b :: t) 0 = b := rfl
    rw [h0]
    simp [List.count_cons]

theorem sum_range_mul (h w : Nat) (g : Nat → Nat) :
    (Finset.range (h * w)).sum g =
      (Finset.range h).sum (fun r => (Finset.range w).sum (fun c => g (r * w + c))) := by
  induction h with
  | zero => simp
  | succ m ih =>
    rw [Nat.succ_mul, Finset.sum_range_add, ih, Finset.sum_range_succ]

theorem life_state_ne_sand (u : Universe) (r c : Nat) (cell : Cell)
    (h : cell = Cell.Alive ∨ cell = Cell.Dead) :
    u.life_state_next_tick r c cell ≠ Cell.Sand := by
  rcases h with rfl | rfl <;>
    simp only [Universe.life_state_next_tick] <;>
    split_ifs <;> simp

theorem rule_val_eq_sand_iff (u : Universe) (r c : Nat) :
    rule_val u r c = Cell.Sand ↔
      (cell_read u.cells (u.get_index r c) = Cell.Sand ∧
        u.sand_can_fall (r + 1) c = false) := by
  cases hcell : cell_read u.cells (u.get_index r c)
  · rw [rule_val_of_dead u hcell]
    exact iff_of_false (life_state_ne_sand u r c Cell.Dead (Or.inr rfl))
      (by rintro ⟨h1, -⟩; cases h1)
  · rw [rule_val_of_alive u hcell]
    exact iff_of_false (life_state_ne_sand u r c Cell.Alive (Or.inl rfl))
      (by rintro ⟨h1, -⟩; cases h1)
  · rw [rule_val_of_wood u hcell]
    refine iff_of_false ?_ (by rintro ⟨h1, -⟩; cases h1)
    unfold Universe.wood_state_next_tick
    split <;> simp
  · rw [rule_val_of_fire u hcell]
    exact iff_of_false (by simp) (by rintro ⟨h1, -⟩; cases h1)
  · rw [rule_val_of_sand u hcell]
    cases hf : u.sand_can_fall (r + 1) c <;> simp [hf]

theorem fall_into_succ_iff (u : Universe) (r c : Nat) :
    fall_into u (r + 1) c ↔
      (cell_read u.cells (u.get_index r c) = Cell.Sand ∧
        u.sand_can_fall (r + 1) c = true) := by
  unfold fall_into
  simp

theorem sand_can_fall_height (u : Universe) (c : Nat) (hh : 0 < u.height) :
    u.sand_can_fall u.height c = false := by
  unfold Universe.sand_can_fall
  rw [if_pos (Or.inl (by omega))]

/-- C10: one tick preserves the number of `Sand` cells.  Every grain either
stays in place (counted by the rule value being `Sand`) or falls exactly one
row down (counted by `fall_into` at the destination); the destinations of
falling grains are in bijection with the falling grains themselves, no other
rule produces `Sand`, and no two grains share a destination. -/
theorem spec_C10_sand_conservation (u : Universe)
    (hlen : u.cells.length = u.width * u.height)
    (_hw : 0 < u.width) (hh : 0 < u.height) :
    u.tick.cells.count Cell.Sand = u.cells.count Cell.Sand := by
  have hlen' : u.tick.cells.length = u.width * u.height := by
    rw [tick_cells_length]; exact hlen
  -- the three summand families
  have hcomm : u.width * u.height = u.height * u.width := Nat.mul_comm _ _
  -- left side: master formula, split into fall-in part and stay part
  have lhs_eq : u.tick.cells.count Cell.Sand =
      (Finset.range u.height).sum (fun r => (Finset.range u.width).sum
        (fun c => if fall_into u r c then (1 : Nat) else 0)) +
      (Finset.range u.height).sum (fun r => (Finset.range u.width).sum
        (fun c => if (cell_read u.cells (u.get_index r c) = Cell.Sand ∧
            u.sand_can_fall (r + 1) c = false) then (1 : Nat) else 0)) := by
    rw [count_eq_sum_read, hlen', hcomm, sum_range_mul]
    have hterm : ∀ r ∈ Finset.range u.height, ∀ c ∈ Finset.range u.width,
        (if cell_read u.tick.cells (r * u.width + c) = Cell.Sand then (1 : Nat) else 0) =
          (if fall_into u r c then (1 : Nat) else 0) +
            (if (cell_read u.cells (u.get_index r c) = Cell.Sand ∧
                u.sand_can_fall (r + 1) c = false) then (1 : Nat) else 0) := by
      intro r hr c hc
      rw [Finset.mem_range] at hr hc
      rw [show r * u.width + c = u.get_index r c from rfl, tick_cells_read u hlen hr hc]
      by_cases hf : fall_into u r c
      · rw [if_pos hf, if_pos rfl, if_pos hf,
          if_neg (fun hstay => ?_)]
        have hmatch := (sand_can_fall_true_iff u hc (by omega)).mp hf.2.2
        rw [hstay.1] at hmatch
        rcases hmatch.2 with h1 | h1 <;> cases h1
      · rw [if_neg hf, if_neg hf, Nat.zero_add]
        by_cases hs : cell_read u.cells (u.get_index r c) = Cell.Sand ∧
            u.sand_can_fall (r + 1) c = false
        · rw [if_pos ((rule_val_eq_sand_iff u r c).mpr hs), if_pos hs]
        · rw [if_neg (fun hrv => hs ((rule_val_eq_sand_iff u r c).mp hrv)), if_neg hs]
    rw [Finset.sum_congr rfl (fun r hr => Finset.sum_congr rfl (fun c hc => hterm r hr c hc))]
    rw [Finset.sum_congr rfl (fun r _ => Finset.sum_add_distrib), Finset.sum_add_distrib]
  -- right side: every Sand cell either falls or stays
  have rhs_eq : u.cells.count Cell.Sand =
      (Finset.range u.height).sum (fun r => (Finset.range u.width).sum
        (fun c => if (cell_read u.cells (u.get_index r c) = Cell.Sand ∧
            u.sand_can_fall (r + 1) c = true) then (1 : Nat) else 0)) +
      (Finset.range u.height).sum (fun r => (Finset.range u.width).sum
        (fun c => if (cell_read u.cells (u.get_index r c) = Cell.Sand ∧
            u.sand_can_fall (r + 1) c = false) then (1 : Nat) else 0)) := by
    rw [count_eq_sum_read, hlen, hcomm, sum_range_mul]
    have hterm : ∀ r ∈ Finset.range u.height, ∀ c ∈ Finset.range u.width,
        (if cell_read u.cells (r * u.width + c) = Cell.Sand then (1 : Nat) else 0) =
          (if (cell_read u.cells (u.get_index r c) = Cell.Sand ∧
              u.sand_can_fall (r + 1) c = true) then (1 : Nat) else 0) +
            (if (cell_read u.cells (u.get_index r c) = Cell.Sand ∧
                u.sand_can_fall (r + 1) c = false) then (1 : Nat) else 0) := by
      intro r _ c _
      rw [show r * u.width + c = u.get_index r c from rfl]
      by_cases hs : cell_read u.cells (u.get_index r c) = Cell.Sand
      · cases hb : u.sand_can_fall (r + 1) c
        · rw [if_pos hs, if_neg (by rintro ⟨-, ht⟩; cases ht), if_pos ⟨hs, rfl⟩]
        · rw [if_pos hs, if_pos ⟨hs, rfl⟩, if_neg (by rintro ⟨-, hfa⟩; cases hfa)]
      · rw [if_neg hs, if_neg (by rintro ⟨h1, -⟩; exact hs h1),
          if_neg (by rintro ⟨h1, -⟩; exact hs h1)]
    rw [Finset.sum_congr rfl (fun r hr => Finset.sum_congr rfl (fun c hc => hterm r hr c hc))]
    rw [Finset.sum_congr rfl (fun r _ => Finset.sum_add_distrib), Finset.sum_add_distrib]
  -- the fall-in destinations are in bijection with the falling grains
  have hbij :
      (Finset.range u.height).sum (fun r => (Finset.range u.width).sum
        (fun c => if fall_into u r c then (1 : Nat) else 0)) =
      (Finset.range u.height).sum (fun r => (Finset.range u.width).sum
        (fun c => if (cell_read u.cells (u.get_index r c) = Cell.Sand ∧
            u.sand_can_fall (r + 1) c = true) then (1 : Nat) else 0)) := by
    rw [Finset.sum_comm]
    rw [show ((Finset.range u.height).sum (fun r => (Finset.range u.width).sum
        (fun c => if (cell_read u.cells (u.get_index r c) = Cell.Sand ∧
            u.sand_can_fall (r + 1) c = true) then (1 : Nat) else 0))) =
      ((Finset.range u.width).sum (fun c => (Finset.range u.height).sum
        (fun r => if (cell_read u.cells (u.get_index r c) = Cell.Sand ∧
            u.sand_can_fall (r + 1) c = true) then (1 : Nat) else 0))) from Finset.sum_comm]
    refine Finset.sum_congr rfl (fun c _ => ?_)
    obtain ⟨m, hm⟩ : ∃ m, u.height = m + 1 := ⟨u.height - 1, by omega⟩
    rw [hm, Finset.sum_range_succ', Finset.sum_range_succ]
    have h0 : (if fall_into u 0 c then (1 : Nat) else 0) = 0 := by
      rw [if_neg]
      intro hf
      exact absurd hf.1 (by omega)
    have hlast : (if (cell_read u.cells (u.get_index m c) = Cell.Sand ∧
        u.sand_can_fall (m + 1) c = true) then (1 : Nat) else 0) = 0 := by
      rw [if_neg]
      rintro ⟨-, ht⟩
      rw [← hm, sand_can_fall_height u c hh] at ht
      cases ht
    rw [h0, hlast, Nat.add_zero, Nat.add_zero]
    refine Finset.sum_congr rfl (fun r _ => ?_)
    by_cases hf : cell_read u.cells (u.get_index r c) = Cell.Sand ∧
        u.sand_can_fall (r + 1) c = true
    · rw [if_pos ((fall_into_succ_iff u r c).mpr hf), if_pos hf]
    · rw [if_neg (fun hfi => hf ((fall_into_succ_iff u r c).mp hfi)), if_neg hf]
  rw [lhs_eq, rhs_eq, hbij]

/-- Witness for C10: a 3x3 grid with four grains of sand keeps exactly four
grains after a tick. -/
theorem spec_C10_sand_conservation_witness :
    ex_sandmix.cells.count Cell.Sand = 4 ∧
    ex_sandmix.tick.cells.count Cell.Sand = ex_sandmix.cells.count Cell.Sand :=
  ⟨by decide, spec_C10_sand_conservation ex_sandmix (by decide) (by decide) (by decide)⟩

end Sandbox
